import Mathlib

/-!
Verification development for the cudf multi-table merge engine
(cpp/src/merge/merge.cu and cpp/include/cudf/detail/merge.cuh).

The data model follows the source: a table is an ordered sequence of columns,
a column holds per-row optional values (a `none` entry is a null row, i.e. the
validity bit is 0), tagged indices pair a side (LEFT/RIGHT) with a row offset.
External collaborator primitives that the merge consumes (the single-table and
two-table lexicographic comparators, thrust merge, the priority queue, and
empty_like) are modelled from their documented contracts; everything else is
translated from the source.
-/

namespace cudf

/-- Column element value. The merge engine materializes fixed-width and string
columns; keys compare per element kind. Cross-kind comparison never occurs in
a merge (the type precondition rejects it); the model extends it to a total
order so that the comparison function stays total. -/
inductive Val : Type
  | vint : Int → Val
  | vstr : String → Val
deriving DecidableEq, Repr

/-- Column element type tag (models cudf data_type for the encodings the
claims exercise). -/
inductive DType : Type
  | int : DType
  | str : DType
deriving DecidableEq, Repr

/-- Column model: a type tag and per-row optional values; `none` models a null
row (validity bit 0), `some v` a valid row holding value `v`. -/
structure Column : Type where
  dtype : DType
  items : List (Option Val)
deriving DecidableEq, Repr

/-- Table model: ordered sequence of columns. -/
abbrev Table : Type := List Column

/-- Sort order of a key column (cudf::order). -/
inductive order : Type
  | ASCENDING : order
  | DESCENDING : order
deriving DecidableEq, Repr

/-- Null precedence of a key column (cudf::null_order): BEFORE means nulls
compare less than all non-null values. -/
inductive null_order : Type
  | BEFORE : null_order
  | AFTER : null_order
deriving DecidableEq, Repr

/-- Number of rows of a table: the row count of its first column, zero for a
table with no columns (models cudf::table_view::num_rows). -/
def num_rows : Table → Nat
  | [] => 0
  | c :: _ => c.items.length

/-- Three-way comparison induced by a linear order; building block of the
element comparisons inside the lexicographic comparator model. -/
def cmpBy {α : Type} [LinearOrder α] (a b : α) : Ordering :=
  if a < b then Ordering.lt else if b < a then Ordering.gt else Ordering.eq

theorem cmpBy_swap {α : Type} [LinearOrder α] (a b : α) :
    cmpBy a b = (cmpBy b a).swap := by
  rcases lt_trichotomy a b with h | h | h
  · simp [cmpBy, Ordering.swap, h, asymm h]
  · subst h
    simp [cmpBy, Ordering.swap, lt_irrefl]
  · simp [cmpBy, Ordering.swap, h, asymm h]

theorem cmpBy_eq_of {α : Type} [LinearOrder α] {a b : α}
    (h : cmpBy a b = Ordering.eq) : a = b := by
  rcases lt_trichotomy a b with h' | h' | h'
  · simp [cmpBy, h'] at h
  · exact h'
  · simp [cmpBy, h', asymm h'] at h

theorem cmpBy_lt_iff {α : Type} [LinearOrder α] {a b : α} :
    cmpBy a b = Ordering.lt ↔ a < b := by
  rcases lt_trichotomy a b with h' | h' | h'
  · simp [cmpBy, h']
  · subst h'
    simp [cmpBy, lt_irrefl]
  · simp [cmpBy, h', asymm h']

theorem cmpBy_lt_trans {α : Type} [LinearOrder α] {a b c : α}
    (h1 : cmpBy a b = Ordering.lt) (h2 : cmpBy b c = Ordering.lt) :
    cmpBy a c = Ordering.lt :=
  cmpBy_lt_iff.mpr (lt_trans (cmpBy_lt_iff.mp h1) (cmpBy_lt_iff.mp h2))

/-- Comparison of two column values of the same kind; kinds never mix in a
merge (type checked), the cross-kind cases only keep the order total. -/
def vcompare : Val → Val → Ordering
  | Val.vint a, Val.vint b => cmpBy a b
  | Val.vstr a, Val.vstr b => cmpBy a b
  | Val.vint _, Val.vstr _ => Ordering.lt
  | Val.vstr _, Val.vint _ => Ordering.gt

theorem vcompare_swap (a b : Val) : vcompare a b = (vcompare b a).swap := by
  cases a <;> cases b
  · exact cmpBy_swap _ _
  · rfl
  · rfl
  · exact cmpBy_swap _ _

theorem vcompare_eq_of {a b : Val} (h : vcompare a b = Ordering.eq) : a = b := by
  cases a <;> cases b <;> simp [vcompare] at h ⊢ <;> exact cmpBy_eq_of h

theorem vcompare_lt_trans {a b c : Val} (h1 : vcompare a b = Ordering.lt)
    (h2 : vcompare b c = Ordering.lt) : vcompare a c = Ordering.lt := by
  cases a <;> cases b <;> cases c <;> simp [vcompare] at h1 h2 ⊢ <;>
    exact cmpBy_lt_trans h1 h2

/-- Modelled from the spec: element comparison with nulls placed per the null
order ("Null order: policy for where null values sort relative to non-null
values"; BEFORE puts nulls first in ascending order). Part of the external
lexicographic comparator primitive consumed by generate_merged_indices. -/
def cmpOptVal (no : null_order) : Option Val → Option Val → Ordering
  | none, none => Ordering.eq
  | none, some _ => match no with
      | null_order.BEFORE => Ordering.lt
      | null_order.AFTER => Ordering.gt
  | some _, none => match no with
      | null_order.BEFORE => Ordering.gt
      | null_order.AFTER => Ordering.lt
  | some a, some b => vcompare a b

theorem cmpOptVal_swap (no : null_order) (a b : Option Val) :
    cmpOptVal no a b = (cmpOptVal no b a).swap := by
  cases a <;> cases b <;> cases no <;>
    first
      | rfl
      | exact vcompare_swap _ _

theorem cmpOptVal_eq_of {no : null_order} {a b : Option Val}
    (h : cmpOptVal no a b = Ordering.eq) : a = b := by
  cases a <;> cases b <;> cases no <;> simp [cmpOptVal] at h ⊢ <;>
    exact vcompare_eq_of h

theorem cmpOptVal_lt_trans {no : null_order} {a b c : Option Val}
    (h1 : cmpOptVal no a b = Ordering.lt) (h2 : cmpOptVal no b c = Ordering.lt) :
    cmpOptVal no a c = Ordering.lt := by
  cases a <;> cases b <;> cases c <;> cases no <;>
    simp [cmpOptVal] at h1 h2 ⊢ <;>
    exact vcompare_lt_trans h1 h2

/-- Modelled from the spec: one key column comparison under its configured
sort order; a DESCENDING column compares with the operands exchanged, so the
column order is "non-decreasing (or non-increasing, per column_order)". -/
def cmpCol (o : order) (no : null_order) (a b : Option Val) : Ordering :=
  match o with
  | order.ASCENDING => cmpOptVal no a b
  | order.DESCENDING => cmpOptVal no b a

theorem cmpCol_swap (o : order) (no : null_order) (a b : Option Val) :
    cmpCol o no a b = (cmpCol o no b a).swap := by
  cases o
  · exact cmpOptVal_swap no a b
  · exact cmpOptVal_swap no b a

theorem cmpCol_eq_of {o : order} {no : null_order} {a b : Option Val}
    (h : cmpCol o no a b = Ordering.eq) : a = b := by
  cases o
  · exact cmpOptVal_eq_of h
  · exact (cmpOptVal_eq_of h).symm

theorem cmpCol_lt_trans {o : order} {no : null_order} {a b c : Option Val}
    (h1 : cmpCol o no a b = Ordering.lt) (h2 : cmpCol o no b c = Ordering.lt) :
    cmpCol o no a c = Ordering.lt := by
  cases o
  · exact cmpOptVal_lt_trans h1 h2
  · exact cmpOptVal_lt_trans h2 h1

/-- Modelled from the spec: lexicographic three-way comparison of two key
rows under per-column sort orders and null orders; the first non-equivalent
key column decides ("the subset of columns whose lexicographic order defines
the merge/sort order"). This is the semantic core of the external
self_comparator / two_table_comparator primitives consumed by
generate_merged_indices. -/
def lexCmpRows : List order → List null_order → List (Option Val) →
    List (Option Val) → Ordering
  | o :: os, no :: ns, x :: xs, y :: ys =>
    match cmpCol o no x y with
    | Ordering.eq => lexCmpRows os ns xs ys
    | r => r
  | _, _, _, _ => Ordering.eq

theorem lexCmpRows_swap (os : List order) (ns : List null_order)
    (a b : List (Option Val)) : lexCmpRows os ns a b = (lexCmpRows os ns b a).swap := by
  induction os generalizing ns a b with
  | nil => cases ns <;> cases a <;> cases b <;> rfl
  | cons o os ih =>
    cases ns with
    | nil => cases a <;> cases b <;> rfl
    | cons no ns =>
      cases a with
      | nil => cases b <;> rfl
      | cons x xs =>
        cases b with
        | nil => rfl
        | cons y ys =>
          have hsw := cmpCol_swap o no x y
          cases h : cmpCol o no y x <;>
            simp [lexCmpRows, hsw, h, Ordering.swap]
          exact ih ns xs ys

/-- A lexicographically equivalent row compares like its partner against any
third row of the same width. -/
theorem lexCmpRows_eq_congr {os : List order} {ns : List null_order}
    {a b : List (Option Val)} (h : lexCmpRows os ns a b = Ordering.eq)
    (hlen : a.length = b.length) (c : List (Option Val)) :
    lexCmpRows os ns a c = lexCmpRows os ns b c := by
  induction os generalizing ns a b c with
  | nil => cases a <;> cases b <;> cases c <;> rfl
  | cons o os ih =>
    cases ns with
    | nil => cases a <;> cases b <;> cases c <;> rfl
    | cons no ns =>
      cases a with
      | nil =>
        cases b with
        | nil => rfl
        | cons y ys => exact absurd hlen (by simp)
      | cons x xs =>
        cases b with
        | nil => exact absurd hlen (by simp)
        | cons y ys =>
          have hcc : cmpCol o no x y = Ordering.eq := by
            by_contra hne
            cases hxy : cmpCol o no x y <;>
              simp [lexCmpRows, hxy] at h hne
          have hx : x = y := cmpCol_eq_of hcc
          subst hx
          cases c with
          | nil => rfl
          | cons z zs =>
            simp only [lexCmpRows, hcc] at h
            cases hxz : cmpCol o no x z <;> simp [lexCmpRows, hxz]
            exact ih h (by simpa using hlen) zs

theorem lexCmpRows_lt_le_trans {os : List order} {ns : List null_order}
    {a b c : List (Option Val)} (hlen1 : a.length = b.length)
    (hlen2 : b.length = c.length) (h1 : lexCmpRows os ns a b = Ordering.lt)
    (h2 : lexCmpRows os ns b c ≠ Ordering.gt) : lexCmpRows os ns a c = Ordering.lt := by
  induction os generalizing ns a b c with
  | nil => simp [lexCmpRows] at h1
  | cons o os ih =>
    cases ns with
    | nil => simp [lexCmpRows] at h1
    | cons no ns =>
      cases a with
      | nil => simp [lexCmpRows] at h1
      | cons x xs =>
        cases b with
        | nil => simp [lexCmpRows] at h1
        | cons y ys =>
          cases c with
          | nil => exact absurd hlen2 (by simp)
          | cons z zs =>
            cases hxy : cmpCol o no x y with
            | gt => simp [lexCmpRows, hxy] at h1
            | lt =>
              cases hyz : cmpCol o no y z with
              | gt => simp [lexCmpRows, hyz] at h2
              | lt => simp [lexCmpRows, cmpCol_lt_trans hxy hyz]
              | eq =>
                have hy : y = z := cmpCol_eq_of hyz
                subst hy
                simp [lexCmpRows, hxy]
            | eq =>
              have hx : x = y := cmpCol_eq_of hxy
              subst hx
              simp only [lexCmpRows, hxy] at h1
              cases hyz : cmpCol o no x z with
              | gt => simp [lexCmpRows, hyz] at h2
              | lt => simp [lexCmpRows, hyz]
              | eq =>
                simp only [lexCmpRows, hyz] at h2 ⊢
                exact ih (by simpa using hlen1) (by simpa using hlen2) h1 h2

theorem lexCmpRows_le_trans {os : List order} {ns : List null_order}
    {a b c : List (Option Val)} (hlen1 : a.length = b.length)
    (hlen2 : b.length = c.length) (h1 : lexCmpRows os ns a b ≠ Ordering.gt)
    (h2 : lexCmpRows os ns b c ≠ Ordering.gt) : lexCmpRows os ns a c ≠ Ordering.gt := by
  cases hab : lexCmpRows os ns a b with
  | gt => exact absurd hab h1
  | lt =>
    rw [lexCmpRows_lt_le_trans hlen1 hlen2 hab h2]
    simp
  | eq =>
    rw [lexCmpRows_eq_congr hab hlen1 c]
    exact h2

/-- Source table identifier to copy data from
(cudf::detail::side, merge.cuh line 31). -/
inductive side : Type
  | LEFT : side
  | RIGHT : side
deriving DecidableEq, Repr

/-- Tagged index type: first component indicates left/right side, second
component the row index (cudf::detail::index_type, merge.cuh line 37). -/
abbrev index_type : Type := side × Nat

/-- The equivalent of row_lexicographic_comparator for tagged indices
(merge.cuh lines 75-108): dispatches on the sides of the two tagged operands
to one of the three wrapped comparators. `left_right_comp_lr` is the
two-table comparator invoked with a left-table row in the first slot;
`left_right_comp_rl` is the same two-table comparator invoked through its
overload taking a right-table row first (the source wraps the indices in
lhs_index_type / rhs_index_type to pick the overload). -/
def row_lexicographic_tagged_comparator
    (left_comp : Nat → Nat → Bool)
    (left_right_comp_lr : Nat → Nat → Bool)
    (left_right_comp_rl : Nat → Nat → Bool)
    (right_comp : Nat → Nat → Bool)
    (lhs_tagged_index rhs_tagged_index : index_type) : Bool :=
  let (l_side, l_indx) := lhs_tagged_index
  let (r_side, r_indx) := rhs_tagged_index
  if l_side = side.LEFT ∧ r_side = side.RIGHT then
    left_right_comp_lr l_indx r_indx
  else if l_side = side.RIGHT ∧ r_side = side.LEFT then
    left_right_comp_rl l_indx r_indx
  else if l_side = side.LEFT ∧ r_side = side.LEFT then
    left_comp l_indx r_indx
  else if l_side = side.RIGHT ∧ r_side = side.RIGHT then
    right_comp l_indx r_indx
  else
    false

/-- Row `i` of a table, as the list of its column values (used for the key
rows a comparator inspects: the tables handed to generate_merged_indices are
already restricted to the key columns). -/
def rowOf (t : Table) (i : Nat) : List (Option Val) :=
  t.map fun c => c.items.getD i none

/-- Modelled from the spec: the external single-table lexicographic
less-than comparator builder (self_comparator) keyed by column_order and
null_order. -/
def self_less (t : Table) (os : List order) (ns : List null_order)
    (i j : Nat) : Bool :=
  lexCmpRows os ns (rowOf t i) (rowOf t j) == Ordering.lt

/-- Modelled from the spec: the external two-table lexicographic less-than
comparator (two_table_comparator), overload taking a left-table row first. -/
def two_table_less_lr (lt_tab rt_tab : Table) (os : List order)
    (ns : List null_order) (i j : Nat) : Bool :=
  lexCmpRows os ns (rowOf lt_tab i) (rowOf rt_tab j) == Ordering.lt

/-- Modelled from the spec: the external two-table lexicographic less-than
comparator (two_table_comparator), overload taking a right-table row first. -/
def two_table_less_rl (lt_tab rt_tab : Table) (os : List order)
    (ns : List null_order) (i j : Nat) : Bool :=
  lexCmpRows os ns (rowOf rt_tab i) (rowOf lt_tab j) == Ordering.lt

/-- The tagged comparator instantiated the way generate_merged_indices
builds it (merge.cu lines 191-225): self comparators for each table and the
two-table comparator for mixed sides. -/
def tagged_less (lt_tab rt_tab : Table) (os : List order)
    (ns : List null_order) : index_type → index_type → Bool :=
  row_lexicographic_tagged_comparator
    (self_less lt_tab os ns)
    (two_table_less_lr lt_tab rt_tab os ns)
    (two_table_less_rl lt_tab rt_tab os ns)
    (self_less rt_tab os ns)

/-- Key row denoted by a tagged index: a LEFT tag reads the left table, a
RIGHT tag the right table. -/
def taggedRow (lt_tab rt_tab : Table) : index_type → List (Option Val)
  | (side.LEFT, i) => rowOf lt_tab i
  | (side.RIGHT, i) => rowOf rt_tab i

/-- Three-way cross-table comparison of the rows denoted by two tagged
indices; `tagged_less` agrees with its strict-less part. -/
def tagged_cmp (lt_tab rt_tab : Table) (os : List order)
    (ns : List null_order) (a b : index_type) : Ordering :=
  lexCmpRows os ns (taggedRow lt_tab rt_tab a) (taggedRow lt_tab rt_tab b)

theorem tagged_less_eq_cmp (lt_tab rt_tab : Table) (os : List order)
    (ns : List null_order) (a b : index_type) :
    tagged_less lt_tab rt_tab os ns a b =
      (tagged_cmp lt_tab rt_tab os ns a b == Ordering.lt) := by
  obtain ⟨sa, ia⟩ := a
  obtain ⟨sb, ib⟩ := b
  cases sa <;> cases sb <;>
    simp [tagged_less, row_lexicographic_tagged_comparator, tagged_cmp,
      taggedRow, self_less, two_table_less_lr, two_table_less_rl]

/-- Stable two-way merge of two sorted sequences, modelled from the spec
contract of the parallel merge kernel (thrust::merge, §4.2: stable on equal
keys with left preferred; an element of the second sequence is emitted first
only when it compares strictly less than the head of the first sequence). -/
def mergeBy {α : Type} (comp : α → α → Bool) : List α → List α → List α
  | [], ys => ys
  | x :: xs, [] => x :: xs
  | x :: xs, y :: ys =>
    if comp y x then y :: mergeBy comp (x :: xs) ys
    else x :: mergeBy comp xs (y :: ys)
termination_by xs ys => xs.length + ys.length

/-- Generates the tagged row indices of the two tables merged into globally
sorted order (generate_merged_indices, merge.cu lines 169-238): the left
table contributes (LEFT, 0..left_size), the right table (RIGHT,
0..right_size), merged under the tagged comparator. -/
def generate_merged_indices (left_table right_table : Table)
    (column_order : List order) (null_precedence : List null_order) :
    List index_type :=
  mergeBy (tagged_less left_table right_table column_order null_precedence)
    ((List.range (num_rows left_table)).map fun i => (side.LEFT, i))
    ((List.range (num_rows right_table)).map fun i => (side.RIGHT, i))

theorem mem_mergeBy {α : Type} (comp : α → α → Bool) (xs ys : List α) (a : α) :
    a ∈ mergeBy comp xs ys ↔ a ∈ xs ∨ a ∈ ys := by
  induction xs, ys using mergeBy.induct comp with
  | case1 ys => simp [mergeBy]
  | case2 x xs => simp [mergeBy]
  | case3 x xs y ys h ih =>
    rw [mergeBy, if_pos h]
    simp only [List.mem_cons] at ih ⊢
    rw [ih]
    tauto
  | case4 x xs y ys h ih =>
    rw [mergeBy, if_neg h]
    simp only [List.mem_cons] at ih ⊢
    rw [ih]
    tauto

theorem head?_mergeBy {α : Type} (comp : α → α → Bool) (xs ys : List α) (z : α)
    (h : (mergeBy comp xs ys).head? = some z) :
    xs.head? = some z ∨ ys.head? = some z := by
  cases xs with
  | nil => exact Or.inr (by simpa [mergeBy] using h)
  | cons x xs =>
    cases ys with
    | nil => exact Or.inl (by simpa [mergeBy] using h)
    | cons y ys =>
      rw [mergeBy] at h
      by_cases hc : comp y x
      · rw [if_pos hc] at h
        exact Or.inr (by simpa using h)
      · rw [if_neg hc] at h
        exact Or.inl (by simpa using h)

/-- Merging two sorted sequences yields a sorted sequence, for any relation
compatible with the merge comparator. -/
theorem chain'_mergeBy {α : Type} (comp : α → α → Bool) (R : α → α → Prop)
    (h1 : ∀ a b, comp a b = true → R a b)
    (h2 : ∀ a b, comp a b = false → R b a) :
    ∀ (xs ys : List α), List.Chain' R xs → List.Chain' R ys →
      List.Chain' R (mergeBy comp xs ys) := by
  intro xs ys
  induction xs, ys using mergeBy.induct comp with
  | case1 ys =>
    intro _ hys
    simpa [mergeBy] using hys
  | case2 x xs =>
    intro hxs _
    simpa [mergeBy] using hxs
  | case3 x xs y ys h ih =>
    intro hxs hys
    rw [mergeBy, if_pos h]
    rw [List.chain'_cons']
    refine ⟨?_, ih hxs hys.tail⟩
    intro b hb
    rcases head?_mergeBy comp _ _ b (Option.mem_def.mp hb) with hl | hr
    · simp only [List.head?_cons, Option.some.injEq] at hl
      subst hl
      exact h1 _ _ h
    · cases ys with
      | nil => simp at hr
      | cons y1 ys =>
        simp only [List.head?_cons, Option.some.injEq] at hr
        subst hr
        exact (List.chain'_cons.mp hys).1
  | case4 x xs y ys h ih =>
    intro hxs hys
    rw [mergeBy, if_neg h]
    rw [List.chain'_cons']
    refine ⟨?_, ih hxs.tail hys⟩
    intro b hb
    rcases head?_mergeBy comp _ _ b (Option.mem_def.mp hb) with hl | hr
    · cases xs with
      | nil => simp at hl
      | cons x1 xs =>
        simp only [List.head?_cons, Option.some.injEq] at hl
        subst hl
        exact (List.chain'_cons.mp hxs).1
    · simp only [List.head?_cons, Option.some.injEq] at hr
      subst hr
      exact h2 _ _ (Bool.eq_false_iff.mpr h)

/-- Stability of the merge, generic form: whenever a right-tagged element
appears strictly before a left-tagged element in the merged output, the
right element compares strictly below the left one. The left sequence must
be sorted; elements are tagged by side as `generate_merged_indices` tags
them. -/
theorem mergeBy_right_before_left
    (comp : index_type → index_type → Bool)
    (c : index_type → index_type → Ordering)
    (hcomp : ∀ a b, comp a b = true ↔ c a b = Ordering.lt)
    (hlt_le : ∀ a b d, c a b = Ordering.lt → c b d ≠ Ordering.gt →
      c a d = Ordering.lt)
    (hle_trans : Transitive fun a b : index_type => c a b ≠ Ordering.gt) :
    ∀ (xs ys : List index_type), (∀ a ∈ xs, a.1 = side.LEFT) →
      (∀ b ∈ ys, b.1 = side.RIGHT) →
      List.Chain' (fun a b => c a b ≠ Ordering.gt) xs →
      ∀ p q, List.Sublist [p, q] (mergeBy comp xs ys) → p.1 = side.RIGHT →
        q.1 = side.LEFT → c p q = Ordering.lt := by
  haveI : IsTrans index_type fun a b => c a b ≠ Ordering.gt := ⟨hle_trans⟩
  intro xs ys
  induction xs, ys using mergeBy.induct comp with
  | case1 ys =>
    intro _ hys _ p q hsub hp hq
    rw [mergeBy] at hsub
    have hqmem : q ∈ ys := hsub.subset (by simp)
    rw [hys q hqmem] at hq
    cases hq
  | case2 x xs =>
    intro hxs _ _ p q hsub hp hq
    rw [mergeBy] at hsub
    have hpmem : p ∈ x :: xs := hsub.subset (by simp)
    rw [hxs p hpmem] at hp
    cases hp
  | case3 x xs y ys h ih =>
    intro hxs hys hch p q hsub hp hq
    rw [mergeBy, if_pos h] at hsub
    cases hsub with
    | cons _ htail =>
      exact ih hxs (fun b hb => hys b (List.mem_cons_of_mem y hb)) hch
        p q htail hp hq
    | cons₂ _ hsingle =>
      have hqmem : q ∈ mergeBy comp (x :: xs) ys :=
        List.singleton_sublist.mp hsingle
      rcases (mem_mergeBy comp _ _ q).mp hqmem with hmem | hmem
      · have hlt : c y x = Ordering.lt := (hcomp y x).mp h
        rcases List.mem_cons.mp hmem with rfl | hmem'
        · exact hlt
        · have hpair := (List.chain'_iff_pairwise.mp hch)
          have hxq : c x q ≠ Ordering.gt :=
            (List.pairwise_cons.mp hpair).1 q hmem'
          exact hlt_le y x q hlt hxq
      · rw [hys q (List.mem_cons_of_mem y hmem)] at hq
        cases hq
  | case4 x xs y ys h ih =>
    intro hxs hys hch p q hsub hp hq
    rw [mergeBy, if_neg h] at hsub
    cases hsub with
    | cons _ htail =>
      exact ih (fun a ha => hxs a (List.mem_cons_of_mem x ha)) hys
        hch.tail p q htail hp hq
    | cons₂ _ hsingle =>
      have hx : x.1 = side.LEFT := hxs x (List.mem_cons_self x xs)
      rw [hx] at hp
      cases hp

theorem length_rowOf (t : Table) (i : Nat) : (rowOf t i).length = t.length :=
  List.length_map t _

theorem taggedRow_length {lt_tab rt_tab : Table}
    (hlen : rt_tab.length = lt_tab.length) (a : index_type) :
    (taggedRow lt_tab rt_tab a).length = lt_tab.length := by
  obtain ⟨sa, ia⟩ := a
  cases sa
  · exact length_rowOf lt_tab ia
  · rw [show taggedRow lt_tab rt_tab (side.RIGHT, ia) = rowOf rt_tab ia from rfl,
      length_rowOf]
    exact hlen

theorem tagged_cmp_swap (lt_tab rt_tab : Table) (os : List order)
    (ns : List null_order) (a b : index_type) :
    tagged_cmp lt_tab rt_tab os ns a b =
      (tagged_cmp lt_tab rt_tab os ns b a).swap :=
  lexCmpRows_swap os ns _ _

theorem tagged_cmp_lt_le_trans {lt_tab rt_tab : Table} {os : List order}
    {ns : List null_order} (hlen : rt_tab.length = lt_tab.length)
    {a b d : index_type} (h1 : tagged_cmp lt_tab rt_tab os ns a b = Ordering.lt)
    (h2 : tagged_cmp lt_tab rt_tab os ns b d ≠ Ordering.gt) :
    tagged_cmp lt_tab rt_tab os ns a d = Ordering.lt :=
  lexCmpRows_lt_le_trans
    ((taggedRow_length hlen a).trans (taggedRow_length hlen b).symm)
    ((taggedRow_length hlen b).trans (taggedRow_length hlen d).symm) h1 h2

theorem tagged_cmp_le_trans {lt_tab rt_tab : Table} {os : List order}
    {ns : List null_order} (hlen : rt_tab.length = lt_tab.length)
    {a b d : index_type} (h1 : tagged_cmp lt_tab rt_tab os ns a b ≠ Ordering.gt)
    (h2 : tagged_cmp lt_tab rt_tab os ns b d ≠ Ordering.gt) :
    tagged_cmp lt_tab rt_tab os ns a d ≠ Ordering.gt :=
  lexCmpRows_le_trans
    ((taggedRow_length hlen a).trans (taggedRow_length hlen b).symm)
    ((taggedRow_length hlen b).trans (taggedRow_length hlen d).symm) h1 h2

theorem ordering_beq_lt_iff {x : Ordering} :
    (x == Ordering.lt) = true ↔ x = Ordering.lt := by
  cases x <;> decide

/-- A table is sorted on its (key) columns: each row compares non-greater
than the next under the configured column orders and null orders. The
tables handed to the pairwise merge are required to be sorted this way. -/
def keys_sorted (t : Table) (os : List order) (ns : List null_order) : Prop :=
  ∀ m < num_rows t - 1,
    lexCmpRows os ns (rowOf t m) (rowOf t (m + 1)) ≠ Ordering.gt

instance (t : Table) (os : List order) (ns : List null_order) :
    Decidable (keys_sorted t os ns) :=
  Nat.decidableBallLT _ _

/-- Sorted tables give a sorted chain of row indices. -/
theorem keys_sorted_chain' {t : Table} {os : List order} {ns : List null_order}
    (h : keys_sorted t os ns) :
    List.Chain' (fun i j => lexCmpRows os ns (rowOf t i) (rowOf t j) ≠ Ordering.gt)
      (List.range (num_rows t)) := by
  cases hn : num_rows t with
  | zero => simp
  | succ n =>
    rw [List.chain'_range_succ]
    intro m hm
    exact h m (by rw [hn]; omega)

/-- One gathered element of the merged column (the device lambda in
column_merger, merge.cu lines 306-309): a LEFT tag reads the left column at
the tagged row, a RIGHT tag the right column. Values and validity travel
together here because a model row is `Option Val`. -/
def gatherItem (lcol rcol : Column) (index_pair : index_type) : Option Val :=
  match index_pair with
  | (side.LEFT, index) => lcol.items.getD index none
  | (side.RIGHT, index) => rcol.items.getD index none

/-- Merged column given the row order of the merged tables (column_merger,
merge.cu lines 244-326): gathers each destination row from the source column
named by its tagged index. -/
def merge_column (row_order : List index_type) (lcol rcol : Column) : Column :=
  { dtype := lcol.dtype, items := row_order.map (gatherItem lcol rcol) }

/-- Key-column selection (table_view::select over key_cols, merge.cu lines
429-430). Indices are assumed in range per the merge preconditions. -/
def table_select (t : Table) (key_cols : List Nat) : Table :=
  key_cols.map fun k => t.getD k { dtype := DType.int, items := [] }

/-- Pairwise merge of two tables (the anonymous-namespace merge, merge.cu
lines 419-454): generate the merged row order from the key columns, then
materialize every column pair along it. -/
def merge_pair (left_table right_table : Table) (key_cols : List Nat)
    (column_order : List order) (null_precedence : List null_order) : Table :=
  let index_left_view := table_select left_table key_cols
  let index_right_view := table_select right_table key_cols
  let merged_indices :=
    generate_merged_indices index_left_view index_right_view column_order
      null_precedence
  List.zipWith (merge_column merged_indices) left_table right_table

/-- Queue entry of the N-way merge scheduler (merge_queue_item, merge.cu
lines 456-469): a table view, ownership of intermediate results (not
modelled: views are values here), and a priority fixed at construction. -/
structure merge_queue_item : Type where
  view : Table
  priority : Int
deriving Repr, DecidableEq

/-- Constructor of merge_queue_item (merge.cu lines 463-466): priority is
the negated row count, so that the smallest table sorts first. -/
def mk_merge_queue_item (t : Table) : merge_queue_item :=
  { view := t, priority := -(num_rows t : Int) }

/-- Modelled from the spec: std::priority_queue top()+pop() combined
(top_and_pop, merge.cu lines 472-478): removes and returns a maximal item
under merge_queue_item::operator<, which compares priorities. Ties go to the
earliest item, one fixed resolution of the tie-break the source leaves to
the container. -/
def top_and_pop : List merge_queue_item →
    Option (merge_queue_item × List merge_queue_item)
  | [] => none
  | x :: xs =>
    match top_and_pop xs with
    | none => some (x, [])
    | some (m, rest) =>
      if x.priority < m.priority then some (m, x :: rest) else some (x, xs)

theorem top_and_pop_none {q : List merge_queue_item}
    (h : top_and_pop q = none) : q = [] := by
  cases q with
  | nil => rfl
  | cons x xs =>
    rw [top_and_pop] at h
    rcases hxs : top_and_pop xs with _ | ⟨m, rest⟩ <;> rw [hxs] at h
    · simp at h
    · by_cases hc : x.priority < m.priority <;> simp [hc] at h

theorem top_and_pop_length : ∀ {q : List merge_queue_item} {a rest},
    top_and_pop q = some (a, rest) → q.length = rest.length + 1 := by
  intro q
  induction q with
  | nil => intro a rest h; simp [top_and_pop] at h
  | cons x xs ih =>
    intro a rest h
    rw [top_and_pop] at h
    rcases hxs : top_and_pop xs with _ | ⟨m, r⟩ <;> rw [hxs] at h
    · obtain rfl := top_and_pop_none hxs
      simp only [Option.some.injEq, Prod.mk.injEq] at h
      obtain ⟨rfl, rfl⟩ := h
      rfl
    · by_cases hc : x.priority < m.priority <;> simp only [hc, if_true, if_false,
        reduceIte, Option.some.injEq, Prod.mk.injEq] at h
      · obtain ⟨rfl, rfl⟩ := h
        simp [ih hxs]
      · obtain ⟨rfl, rfl⟩ := h
        rfl

/-- The popped item carries a maximal priority among the queue's items. -/
theorem top_and_pop_max : ∀ {q : List merge_queue_item} {a rest},
    top_and_pop q = some (a, rest) → ∀ b ∈ q, b.priority ≤ a.priority := by
  intro q
  induction q with
  | nil => intro a rest h; simp [top_and_pop] at h
  | cons x xs ih =>
    intro a rest h b hb
    rw [top_and_pop] at h
    rcases hxs : top_and_pop xs with _ | ⟨m, r⟩ <;> rw [hxs] at h
    · obtain rfl := top_and_pop_none hxs
      simp only [Option.some.injEq, Prod.mk.injEq] at h
      obtain ⟨rfl, rfl⟩ := h
      rcases List.mem_cons.mp hb with rfl | hb'
      · exact le_refl _
      · simp at hb'
    · by_cases hc : x.priority < m.priority <;> simp only [hc, if_true, if_false,
        reduceIte, Option.some.injEq, Prod.mk.injEq] at h
      · obtain ⟨rfl, rfl⟩ := h
        rcases List.mem_cons.mp hb with rfl | hb'
        · exact le_of_lt hc
        · exact ih hxs b hb'
      · obtain ⟨rfl, rfl⟩ := h
        rcases List.mem_cons.mp hb with rfl | hb'
        · exact le_refl _
        · exact le_trans (ih hxs b hb') (not_lt.mp hc)

/-- The remaining items after a pop all come from the original queue. -/
theorem top_and_pop_rest_subset : ∀ {q : List merge_queue_item} {a rest},
    top_and_pop q = some (a, rest) → ∀ b ∈ rest, b ∈ q := by
  intro q
  induction q with
  | nil => intro a rest h; simp [top_and_pop] at h
  | cons x xs ih =>
    intro a rest h b hb
    rw [top_and_pop] at h
    rcases hxs : top_and_pop xs with _ | ⟨m, r⟩ <;> rw [hxs] at h
    · simp only [Option.some.injEq, Prod.mk.injEq] at h
      obtain ⟨rfl, rfl⟩ := h
      simp at hb
    · by_cases hc : x.priority < m.priority <;> simp only [hc, if_true, if_false,
        reduceIte, Option.some.injEq, Prod.mk.injEq] at h
      · obtain ⟨rfl, rfl⟩ := h
        rcases List.mem_cons.mp hb with rfl | hb'
        · exact List.mem_cons_self _ _
        · exact List.mem_cons_of_mem x (ih hxs b hb')
      · obtain ⟨rfl, rfl⟩ := h
        exact List.mem_cons_of_mem x hb

/-- The popped item is one of the queue's items. -/
theorem top_and_pop_mem : ∀ {q : List merge_queue_item} {a rest},
    top_and_pop q = some (a, rest) → a ∈ q := by
  intro q
  induction q with
  | nil => intro a rest h; simp [top_and_pop] at h
  | cons x xs ih =>
    intro a rest h
    rw [top_and_pop] at h
    rcases hxs : top_and_pop xs with _ | ⟨m, r⟩ <;> rw [hxs] at h
    · simp only [Option.some.injEq, Prod.mk.injEq] at h
      obtain ⟨rfl, rfl⟩ := h
      exact List.mem_cons_self x xs
    · by_cases hc : x.priority < m.priority <;> simp only [hc, if_true, if_false,
        reduceIte, Option.some.injEq, Prod.mk.injEq] at h
      · obtain ⟨rfl, rfl⟩ := h
        exact List.mem_cons_of_mem x (ih hxs)
      · obtain ⟨rfl, rfl⟩ := h
        exact List.mem_cons_self x xs

/-- The scheduler loop (merge.cu lines 532-550): while more than one item
remains, pop the two top items, pairwise-merge them and push the result back
with a freshly computed priority; with one item left, return its table. -/
def nway_loop (key_cols : List Nat) (column_order : List order)
    (null_precedence : List null_order) (q : List merge_queue_item) : Table :=
  match hq : top_and_pop q with
  | none => []
  | some (left_item, rest1) =>
    match hr : top_and_pop rest1 with
    | none => left_item.view
    | some (right_item, rest2) =>
      nway_loop key_cols column_order null_precedence
        (mk_merge_queue_item
            (merge_pair left_item.view right_item.view key_cols column_order
              null_precedence) :: rest2)
termination_by q.length
decreasing_by
  have h1 := top_and_pop_length hq
  have h2 := top_and_pop_length hr
  simp only [List.length_cons]
  omega

/-- Column-type list equality (models cudf::have_same_types for the merge
precondition check). -/
def have_same_types (a b : Table) : Bool :=
  a.map Column.dtype == b.map Column.dtype

/-- Modelled from the spec: cudf::empty_like, an empty table shaped like the
given table's schema. -/
def empty_like (t : Table) : Table :=
  t.map fun c => { dtype := c.dtype, items := [] }

/-- The N-way merge entry point (cudf::detail::merge, merge.cu lines
482-553): precondition checks, zero-row tables discarded, trivial cases
returned directly, otherwise the smallest-first pairwise scheduler loop.
Dictionary-key matching is the identity here (no dictionary encoding in the
model), and configuration failures surface as `Except.error` with the
source's message. -/
def cudf_merge (tables_to_merge : List Table) (key_cols : List Nat)
    (column_order : List order) (null_precedence : List null_order) :
    Except String Table :=
  match tables_to_merge with
  | [] => Except.ok []
  | first_table :: rest =>
    if !((first_table :: rest).all fun tbl => tbl.length == first_table.length)
    then Except.error "Mismatched number of columns"
    else if !((first_table :: rest).all fun tbl => have_same_types first_table tbl)
    then Except.error "Mismatched column types"
    else if key_cols.isEmpty then Except.error "Empty key_cols"
    else if first_table.length < key_cols.length
    then Except.error "Too many values in key_cols"
    else if !(key_cols.length == column_order.length)
    then Except.error "Mismatched size between key_cols and column_order"
    else
      match ((first_table :: rest).filter fun tbl =>
          decide (0 < num_rows tbl)).map mk_merge_queue_item with
      | [single] => Except.ok single.view
      | [] => Except.ok (empty_like first_table)
      | items => Except.ok (nway_loop key_cols column_order null_precedence items)

/-- Bit-level view of one source column for the bitmask merge: the row count
and the optional validity bitmask, one bit per row, absent mask meaning all
rows valid (models the column_device_view the kernel reads). -/
structure MColumn : Type where
  size : Nat
  mask : Option (List Bool)
deriving DecidableEq, Repr

/-- Validity bit of a row, unchecked read (column_device_view
is_valid_nocheck): true when the column has no mask, else the mask bit. -/
def is_valid_nocheck (c : MColumn) (i : Nat) : Bool :=
  match c.mask with
  | some m => m.getD i true
  | none => true

/-- Whether the column has any null row (column_view::has_nulls, i.e. the
null count is positive). -/
def has_nulls (c : MColumn) : Bool :=
  (c.mask.getD []).any fun b => !b

/-- Merges the bits of two validity bitmasks (the per-destination-row
semantics of materialize_merged_bitmask_kernel, merge.cu lines 76-107): for
destination row i with merged_indices[i] = (src_side, src_row), the bit is
read from the side's column when the matching template flag says that column
has valids, and defaults to valid otherwise. The warp ballot that packs 32
bits into one mask word is a layout detail abstracted into a per-row list. -/
def materialize_merged_bitmask_kernel (left_have_valids right_have_valids : Bool)
    (left_dcol right_dcol : MColumn) (merged_indices : List index_type) :
    List Bool :=
  merged_indices.map fun idx =>
    let src_side := idx.1
    let src_row := idx.2
    let from_left : Bool := src_side = side.LEFT
    if left_have_valids && from_left then is_valid_nocheck left_dcol src_row
    else if right_have_valids && !from_left then is_valid_nocheck right_dcol src_row
    else true

/-- Dispatch of the bitmask merge on which sides have nulls
(materialize_bitmask, merge.cu lines 109-146): the (false, false)
instantiation is a hard failure. -/
def materialize_bitmask (left_col right_col : MColumn)
    (merged_indices : List index_type) : Except String (List Bool) :=
  if has_nulls left_col then
    if has_nulls right_col then
      Except.ok (materialize_merged_bitmask_kernel true true left_col right_col
        merged_indices)
    else
      Except.ok (materialize_merged_bitmask_kernel true false left_col right_col
        merged_indices)
  else
    if has_nulls right_col then
      Except.ok (materialize_merged_bitmask_kernel false true left_col right_col
        merged_indices)
    else
      Except.error
        "materialize_merged_bitmask_kernel<false, false>() should never be called."

/-- Destination validity bits produced by the column merger (merge.cu lines
279-319): the output mask is initialized to all-valid, and
materialize_bitmask runs only when at least one source column has nulls, so
the (false, false) kernel instantiation is never reached from here. -/
def column_merger_validity (left_col right_col : MColumn)
    (merged_indices : List index_type) : List Bool :=
  let init := List.replicate merged_indices.length true
  if has_nulls left_col || has_nulls right_col then
    match materialize_bitmask left_col right_col merged_indices with
    | Except.ok bits => bits
    | Except.error _ => init
  else init

/-- Masks are sized one bit per row. -/
def mask_wf (c : MColumn) : Prop :=
  ∀ m, c.mask = some m → m.length = c.size

/-- Every merged tagged index addresses a row of its source column. -/
def merged_in_range (left_col right_col : MColumn)
    (merged_indices : List index_type) : Prop :=
  ∀ p ∈ merged_indices, (p.1 = side.LEFT → p.2 < left_col.size) ∧
    (p.1 = side.RIGHT → p.2 < right_col.size)

instance (left_col right_col : MColumn) (merged_indices : List index_type) :
    Decidable (merged_in_range left_col right_col merged_indices) :=
  inferInstanceAs (Decidable (∀ p ∈ merged_indices,
    (p.1 = side.LEFT → p.2 < left_col.size) ∧
    (p.1 = side.RIGHT → p.2 < right_col.size)))

/-- The bit value the spec prescribes for a destination row: valid iff the
source column named by the side has no mask or has the bit set at the source
row. -/
def source_valid_spec (left_col right_col : MColumn) (p : index_type) : Prop :=
  match p.1 with
  | side.LEFT => left_col.mask = none ∨
      ∃ m, left_col.mask = some m ∧ m.getD p.2 false = true
  | side.RIGHT => right_col.mask = none ∨
      ∃ m, right_col.mask = some m ∧ m.getD p.2 false = true

/-- The side dispatch of the tagged comparator written as an exhaustive
four-way match, with no fallback branch. -/
def tagged_comparator_dispatch (left_comp left_right_comp_lr left_right_comp_rl
    right_comp : Nat → Nat → Bool) : index_type → index_type → Bool
  | (side.LEFT, l_indx), (side.RIGHT, r_indx) => left_right_comp_lr l_indx r_indx
  | (side.RIGHT, l_indx), (side.LEFT, r_indx) => left_right_comp_rl l_indx r_indx
  | (side.LEFT, l_indx), (side.LEFT, r_indx) => left_comp l_indx r_indx
  | (side.RIGHT, l_indx), (side.RIGHT, r_indx) => right_comp l_indx r_indx

/-- C10: the tagged comparator's four-way side dispatch is exhaustive — on
every pair of tagged indices the comparator returns the value of exactly the
delegate branch selected by the two side tags, i.e. it coincides with the
fallback-free four-way match, so the trailing `return false` after the
dispatch chain is unreachable. -/
theorem C10_dispatch_exhaustive
    (left_comp left_right_comp_lr left_right_comp_rl right_comp :
      Nat → Nat → Bool) (a b : index_type) :
    row_lexicographic_tagged_comparator left_comp left_right_comp_lr
        left_right_comp_rl right_comp a b =
      tagged_comparator_dispatch left_comp left_right_comp_lr
        left_right_comp_rl right_comp a b := by
  obtain ⟨sa, ia⟩ := a
  obtain ⟨sb, ib⟩ := b
  cases sa <;> cases sb <;>
    simp [row_lexicographic_tagged_comparator, tagged_comparator_dispatch]

/-- C3: the tagged comparator returns true iff the row denoted by its first
tagged operand sorts strictly before the row denoted by its second, and it
dispatches on the two side tags: (LEFT, LEFT) to the left self comparator,
(RIGHT, RIGHT) to the right self comparator, (LEFT, RIGHT) to the two-table
comparator, and (RIGHT, LEFT) to the same two-table comparator through its
swapped-argument overload, which still answers whether the first operand (a
right-table row) precedes the second (a left-table row). -/
theorem C3_tagged_comparator_contract (lt_tab rt_tab : Table)
    (os : List order) (ns : List null_order) :
    (∀ a b, tagged_less lt_tab rt_tab os ns a b = true ↔
      tagged_cmp lt_tab rt_tab os ns a b = Ordering.lt) ∧
    (∀ i j, tagged_less lt_tab rt_tab os ns (side.LEFT, i) (side.RIGHT, j) =
      two_table_less_lr lt_tab rt_tab os ns i j) ∧
    (∀ i j, tagged_less lt_tab rt_tab os ns (side.RIGHT, i) (side.LEFT, j) =
      two_table_less_rl lt_tab rt_tab os ns i j) ∧
    (∀ i j, tagged_less lt_tab rt_tab os ns (side.LEFT, i) (side.LEFT, j) =
      self_less lt_tab os ns i j) ∧
    (∀ i j, tagged_less lt_tab rt_tab os ns (side.RIGHT, i) (side.RIGHT, j) =
      self_less rt_tab os ns i j) := by
  refine ⟨fun a b => ?_, fun i j => ?_, fun i j => ?_, fun i j => ?_,
    fun i j => ?_⟩
  · rw [tagged_less_eq_cmp]
    exact ordering_beq_lt_iff
  all_goals rfl

/-- C1: merging two tables that are each sorted on the key columns produces
a merged tagged-index sequence in which every adjacent pair of denoted rows
compares non-decreasing (non-increasing for DESCENDING key columns) under
the configured null order, i.e. the sequence is sorted under the cross-table
comparator. -/
theorem C1_merged_indices_sorted (lt_tab rt_tab : Table) (os : List order)
    (ns : List null_order) (hl : keys_sorted lt_tab os ns)
    (hr : keys_sorted rt_tab os ns) :
    List.Chain' (fun a b => tagged_cmp lt_tab rt_tab os ns a b ≠ Ordering.gt)
      (generate_merged_indices lt_tab rt_tab os ns) := by
  apply chain'_mergeBy (tagged_less lt_tab rt_tab os ns)
  · intro a b hab
    rw [tagged_less_eq_cmp] at hab
    rw [ordering_beq_lt_iff.mp hab]
    simp
  · intro a b hab hgt
    rw [tagged_less_eq_cmp] at hab
    have hlt : tagged_cmp lt_tab rt_tab os ns a b = Ordering.lt := by
      rw [tagged_cmp_swap lt_tab rt_tab os ns a b, hgt]
      rfl
    have htrue := ordering_beq_lt_iff.mpr hlt
    rw [hab] at htrue
    exact absurd htrue (by decide)
  · rw [List.chain'_map]
    exact keys_sorted_chain' hl
  · rw [List.chain'_map]
    exact keys_sorted_chain' hr

/-- C1 witness at concrete sorted tables. -/
theorem C1_merged_indices_sorted_witness :
    keys_sorted [⟨DType.int, [some (Val.vint 1), some (Val.vint 3)]⟩]
        [order.ASCENDING] [null_order.BEFORE] ∧
    keys_sorted [⟨DType.int, [some (Val.vint 2)]⟩]
        [order.ASCENDING] [null_order.BEFORE] ∧
    List.Chain'
      (fun a b => tagged_cmp [⟨DType.int, [some (Val.vint 1), some (Val.vint 3)]⟩]
        [⟨DType.int, [some (Val.vint 2)]⟩] [order.ASCENDING] [null_order.BEFORE]
          a b ≠ Ordering.gt)
      (generate_merged_indices
        [⟨DType.int, [some (Val.vint 1), some (Val.vint 3)]⟩]
        [⟨DType.int, [some (Val.vint 2)]⟩]
        [order.ASCENDING] [null_order.BEFORE]) :=
  ⟨by decide, by decide,
    C1_merged_indices_sorted _ _ _ _ (by decide) (by decide)⟩

/-- C2: the pairwise merge is stable on equal keys with left preferred:
merging the one-row tables (1, "a") and (1, "b") on key column 0 ascending
yields exactly ((1, "a"), (1, "b")); and in general, when a left row and a
right row have equal keys, the right-tagged index never precedes the
left-tagged index in the merged sequence (the left-table row never appears
after the right-table row). -/
theorem C2_stability :
    (merge_pair
        [⟨DType.int, [some (Val.vint 1)]⟩, ⟨DType.str, [some (Val.vstr "a")]⟩]
        [⟨DType.int, [some (Val.vint 1)]⟩, ⟨DType.str, [some (Val.vstr "b")]⟩]
        [0] [order.ASCENDING] [null_order.BEFORE] =
      [⟨DType.int, [some (Val.vint 1), some (Val.vint 1)]⟩,
       ⟨DType.str, [some (Val.vstr "a"), some (Val.vstr "b")]⟩]) ∧
    (∀ (lt_tab rt_tab : Table) (os : List order) (ns : List null_order)
      (i j : Nat), rt_tab.length = lt_tab.length →
      keys_sorted lt_tab os ns →
      tagged_cmp lt_tab rt_tab os ns (side.LEFT, i) (side.RIGHT, j) =
        Ordering.eq →
      ¬ List.Sublist [(side.RIGHT, j), (side.LEFT, i)]
        (generate_merged_indices lt_tab rt_tab os ns)) := by
  constructor
  · simp [merge_pair, table_select, generate_merged_indices, num_rows,
      mergeBy, tagged_less, row_lexicographic_tagged_comparator, self_less,
      two_table_less_lr, two_table_less_rl, rowOf, lexCmpRows, cmpCol,
      cmpOptVal, vcompare, cmpBy, merge_column, gatherItem, List.range_succ]
    decide
  · intro lt_tab rt_tab os ns i j hlen hsorted heq hsub
    have hlt : tagged_cmp lt_tab rt_tab os ns (side.RIGHT, j) (side.LEFT, i) =
        Ordering.lt := by
      refine mergeBy_right_before_left (tagged_less lt_tab rt_tab os ns)
        (tagged_cmp lt_tab rt_tab os ns) ?_ ?_ ?_ _ _ ?_ ?_ ?_ _ _ hsub rfl rfl
      · intro a b
        rw [tagged_less_eq_cmp]
        exact ordering_beq_lt_iff
      · intro a b d h1 h2
        exact tagged_cmp_lt_le_trans hlen h1 h2
      · intro a b d h1 h2
        exact tagged_cmp_le_trans hlen h1 h2
      · intro a ha
        rcases List.mem_map.mp ha with ⟨k, _, rfl⟩
        rfl
      · intro b hb
        rcases List.mem_map.mp hb with ⟨k, _, rfl⟩
        rfl
      · rw [List.chain'_map]
        exact keys_sorted_chain' hsorted
    have : tagged_cmp lt_tab rt_tab os ns (side.RIGHT, j) (side.LEFT, i) =
        Ordering.eq := by
      rw [tagged_cmp_swap lt_tab rt_tab os ns _ _, heq]
      rfl
    rw [this] at hlt
    exact absurd hlt (by decide)

/-- C2 witness: one-row tables with equal keys; the merged sequence never
places the right row before the left row. -/
theorem C2_stability_witness :
    (([⟨DType.int, [some (Val.vint 1)]⟩] : Table).length =
      ([⟨DType.int, [some (Val.vint 1)]⟩] : Table).length) ∧
    keys_sorted [⟨DType.int, [some (Val.vint 1)]⟩] [order.ASCENDING]
      [null_order.BEFORE] ∧
    tagged_cmp [⟨DType.int, [some (Val.vint 1)]⟩]
      [⟨DType.int, [some (Val.vint 1)]⟩] [order.ASCENDING] [null_order.BEFORE]
      (side.LEFT, 0) (side.RIGHT, 0) = Ordering.eq ∧
    ¬ List.Sublist [(side.RIGHT, 0), (side.LEFT, 0)]
      (generate_merged_indices [⟨DType.int, [some (Val.vint 1)]⟩]
        [⟨DType.int, [some (Val.vint 1)]⟩] [order.ASCENDING]
        [null_order.BEFORE]) :=
  ⟨rfl, by decide, by decide,
    C2_stability.2 _ _ _ _ 0 0 rfl (by decide) (by decide)⟩

theorem has_nulls_eq_false_all {c : MColumn} {m : List Bool}
    (hn : has_nulls c = false) (hm : c.mask = some m) : ∀ b ∈ m, b = true := by
  unfold has_nulls at hn
  rw [hm] at hn
  intro b hb
  have h := List.any_eq_false.mp hn b hb
  simpa using h

theorem has_nulls_eq_true_some {c : MColumn} (hn : has_nulls c = true) :
    ∃ m, c.mask = some m := by
  cases hc : c.mask with
  | none =>
    unfold has_nulls at hn
    rw [hc] at hn
    simp at hn
  | some m => exact ⟨m, rfl⟩

/-- The unchecked validity read agrees with the spec's disjunction on any
in-range row. -/
theorem valid_bit_iff {c : MColumn} (hw : mask_wf c) {p2 : Nat}
    (hp : p2 < c.size) :
    is_valid_nocheck c p2 = true ↔
      (c.mask = none ∨ ∃ m, c.mask = some m ∧ m.getD p2 false = true) := by
  cases hc : c.mask with
  | none => simp [is_valid_nocheck, hc]
  | some m =>
    have hlt : p2 < m.length := by rw [hw m hc]; exact hp
    simp only [is_valid_nocheck, hc, Option.some.injEq]
    rw [List.getD_eq_getElem _ _ hlt]
    constructor
    · intro h
      exact Or.inr ⟨m, rfl, by rw [List.getD_eq_getElem _ _ hlt]; exact h⟩
    · rintro (h | ⟨m', rfl, h⟩)
      · cases h
      · rw [List.getD_eq_getElem _ _ hlt] at h
        exact h

/-- A column with no nulls reads valid on any in-range row. -/
theorem valid_bit_of_no_nulls {c : MColumn} (hw : mask_wf c)
    (hn : has_nulls c = false) {p2 : Nat} (hp : p2 < c.size) :
    is_valid_nocheck c p2 = true := by
  cases hc : c.mask with
  | none => simp [is_valid_nocheck, hc]
  | some m =>
    have hlt : p2 < m.length := by rw [hw m hc]; exact hp
    simp only [is_valid_nocheck, hc]
    rw [List.getD_eq_getElem _ _ hlt]
    exact has_nulls_eq_false_all hn hc _ (List.getElem_mem hlt)

theorem kernel_getD (lhv rhv : Bool) (l r : MColumn)
    (merged : List index_type) (i : Nat) (hi : i < merged.length) :
    (materialize_merged_bitmask_kernel lhv rhv l r merged).getD i false =
      (fun idx : index_type =>
        if lhv && decide (idx.1 = side.LEFT) then is_valid_nocheck l idx.2
        else if rhv && !(decide (idx.1 = side.LEFT)) then
          is_valid_nocheck r idx.2
        else true) (merged.getD i (side.LEFT, 0)) := by
  have hlen : i < (materialize_merged_bitmask_kernel lhv rhv l r merged).length := by
    simpa [materialize_merged_bitmask_kernel] using hi
  rw [List.getD_eq_getElem _ _ hlen, List.getD_eq_getElem _ _ hi]
  simp [materialize_merged_bitmask_kernel]

/-- C4: for every destination row i of the merged validity bitmask produced
by the column merger, with (src_side, src_row) the merged tagged index at i,
the destination validity bit is 1 iff the source column named by the side
either has no validity mask (implicitly all valid) or has its validity bit
set at the source row; this holds for every combination of which sides carry
nulls. -/
theorem C4_bitmask_roundtrip (left_col right_col : MColumn)
    (merged_indices : List index_type) (hwl : mask_wf left_col)
    (hwr : mask_wf right_col)
    (hrange : merged_in_range left_col right_col merged_indices)
    (i : Nat) (hi : i < merged_indices.length) :
    ((column_merger_validity left_col right_col merged_indices).getD i false =
        true) ↔
      source_valid_spec left_col right_col
        (merged_indices.getD i (side.LEFT, 0)) := by
  have hmem : merged_indices.getD i (side.LEFT, 0) ∈ merged_indices := by
    rw [List.getD_eq_getElem _ _ hi]
    exact List.getElem_mem hi
  rcases hgd : merged_indices.getD i (side.LEFT, 0) with ⟨s, p2⟩
  rw [hgd] at hmem
  have hrng := hrange (s, p2) hmem
  cases hhl : has_nulls left_col <;> cases hhr : has_nulls right_col
  · have hvl : column_merger_validity left_col right_col merged_indices =
        List.replicate merged_indices.length true := by
      simp [column_merger_validity, hhl, hhr]
    rw [hvl, List.getD_eq_getElem _ _ (by simpa using hi)]
    simp only [List.getElem_replicate]
    cases s
    · exact iff_of_true trivial
        ((valid_bit_iff hwl (hrng.1 rfl)).mp
          (valid_bit_of_no_nulls hwl hhl (hrng.1 rfl)))
    · exact iff_of_true trivial
        ((valid_bit_iff hwr (hrng.2 rfl)).mp
          (valid_bit_of_no_nulls hwr hhr (hrng.2 rfl)))
  · have hvl : column_merger_validity left_col right_col merged_indices =
        materialize_merged_bitmask_kernel false true left_col right_col
          merged_indices := by
      simp [column_merger_validity, materialize_bitmask, hhl, hhr]
    rw [hvl, kernel_getD false true _ _ _ i hi, hgd]
    cases s
    · exact iff_of_true rfl
        ((valid_bit_iff hwl (hrng.1 rfl)).mp
          (valid_bit_of_no_nulls hwl hhl (hrng.1 rfl)))
    · exact valid_bit_iff hwr (hrng.2 rfl)
  · have hvl : column_merger_validity left_col right_col merged_indices =
        materialize_merged_bitmask_kernel true false left_col right_col
          merged_indices := by
      simp [column_merger_validity, materialize_bitmask, hhl, hhr]
    rw [hvl, kernel_getD true false _ _ _ i hi, hgd]
    cases s
    · exact valid_bit_iff hwl (hrng.1 rfl)
    · exact iff_of_true rfl
        ((valid_bit_iff hwr (hrng.2 rfl)).mp
          (valid_bit_of_no_nulls hwr hhr (hrng.2 rfl)))
  · have hvl : column_merger_validity left_col right_col merged_indices =
        materialize_merged_bitmask_kernel true true left_col right_col
          merged_indices := by
      simp [column_merger_validity, materialize_bitmask, hhl, hhr]
    rw [hvl, kernel_getD true true _ _ _ i hi, hgd]
    cases s
    · exact valid_bit_iff hwl (hrng.1 rfl)
    · exact valid_bit_iff hwr (hrng.2 rfl)

/-- C4 witness: left mask (1, 0, 1), right mask (0, 1), an interleaved
merged order; checked at destination row 0. -/
theorem C4_bitmask_roundtrip_witness :
    mask_wf ⟨3, some [true, false, true]⟩ ∧
    mask_wf ⟨2, some [false, true]⟩ ∧
    merged_in_range ⟨3, some [true, false, true]⟩ ⟨2, some [false, true]⟩
      [(side.LEFT, 0), (side.RIGHT, 0), (side.LEFT, 1), (side.RIGHT, 1),
        (side.LEFT, 2)] ∧
    (((column_merger_validity ⟨3, some [true, false, true]⟩
        ⟨2, some [false, true]⟩
        [(side.LEFT, 0), (side.RIGHT, 0), (side.LEFT, 1), (side.RIGHT, 1),
          (side.LEFT, 2)]).getD 0 false = true) ↔
      source_valid_spec ⟨3, some [true, false, true]⟩ ⟨2, some [false, true]⟩
        ([(side.LEFT, 0), (side.RIGHT, 0), (side.LEFT, 1), (side.RIGHT, 1),
          (side.LEFT, 2)].getD 0 (side.LEFT, 0))) :=
  ⟨by intro m hm; injection hm with h; subst h; rfl,
   by intro m hm; injection hm with h; subst h; rfl,
   by decide,
   C4_bitmask_roundtrip _ _ _
     (by intro m hm; injection hm with h; subst h; rfl)
     (by intro m hm; injection hm with h; subst h; rfl)
     (by decide) 0 (by decide)⟩

/-- C6: invoking the bitmask merge when neither source column has nulls is a
hard fatal error, and the column merger never reaches that combination: it
leaves the pre-initialized all-valid mask untouched (calling
materialize_bitmask only when at least one side has nulls). -/
theorem C6_bitmask_neither_side (left_col right_col : MColumn)
    (merged_indices : List index_type)
    (hl : has_nulls left_col = false) (hr : has_nulls right_col = false) :
    materialize_bitmask left_col right_col merged_indices =
      Except.error
        "materialize_merged_bitmask_kernel<false, false>() should never be called."
      ∧
    column_merger_validity left_col right_col merged_indices =
      List.replicate merged_indices.length true := by
  constructor
  · simp [materialize_bitmask, hl, hr]
  · simp [column_merger_validity, hl, hr]

/-- With every precondition check satisfied, cudf_merge reduces to the
queue phase. -/
theorem cudf_merge_checks_pass {first_table : Table} {rest : List Table}
    {key_cols : List Nat} {column_order : List order}
    {null_precedence : List null_order}
    (hcols : ∀ tbl ∈ first_table :: rest, tbl.length = first_table.length)
    (htypes : ∀ tbl ∈ first_table :: rest,
      tbl.map Column.dtype = first_table.map Column.dtype)
    (hkc : key_cols ≠ [])
    (hle : key_cols.length ≤ first_table.length)
    (hos : key_cols.length = column_order.length) :
    cudf_merge (first_table :: rest) key_cols column_order null_precedence =
      match ((first_table :: rest).filter fun tbl =>
          decide (0 < num_rows tbl)).map mk_merge_queue_item with
      | [single] => Except.ok single.view
      | [] => Except.ok (empty_like first_table)
      | items => Except.ok (nway_loop key_cols column_order null_precedence
          items) := by
  have h1 : ((first_table :: rest).all fun tbl =>
      tbl.length == first_table.length) = true :=
    List.all_eq_true.mpr fun tbl ht => beq_iff_eq.mpr (hcols tbl ht)
  have h2 : ((first_table :: rest).all fun tbl =>
      have_same_types first_table tbl) = true :=
    List.all_eq_true.mpr fun tbl ht =>
      beq_iff_eq.mpr (htypes tbl ht).symm
  have h3 : key_cols.isEmpty = false := List.isEmpty_eq_false.mpr hkc
  have h4 : ¬ (first_table.length < key_cols.length) := not_lt.mpr hle
  have h5 : (key_cols.length == column_order.length) = true :=
    beq_iff_eq.mpr hos
  simp only [cudf_merge, h1, h2, h3, h4, h5, Bool.not_true, Bool.false_eq_true,
    if_false, ite_false]

/-- C6 witness: a maskless left column and an all-valid masked right
column. -/
theorem C6_bitmask_neither_side_witness :
    has_nulls ⟨2, none⟩ = false ∧ has_nulls ⟨1, some [true]⟩ = false ∧
    materialize_bitmask ⟨2, none⟩ ⟨1, some [true]⟩
        [(side.LEFT, 0), (side.RIGHT, 0), (side.LEFT, 1)] =
      Except.error
        "materialize_merged_bitmask_kernel<false, false>() should never be called."
      ∧
    column_merger_validity ⟨2, none⟩ ⟨1, some [true]⟩
        [(side.LEFT, 0), (side.RIGHT, 0), (side.LEFT, 1)] =
      List.replicate 3 true :=
  ⟨by decide, by decide,
    (C6_bitmask_neither_side _ _ _ (by decide) (by decide)).1,
    (C6_bitmask_neither_side _ _ _ (by decide) (by decide)).2⟩

/-- C7: merging an empty list of tables returns a true empty table (no
columns), and merging a non-empty list whose tables all have zero rows
(under valid configuration) returns an empty table shaped like the first
input's schema. -/
theorem C7_empty_handling :
    (∀ (key_cols : List Nat) (column_order : List order)
      (null_precedence : List null_order),
      cudf_merge [] key_cols column_order null_precedence = Except.ok []) ∧
    (∀ (first_table : Table) (rest : List Table) (key_cols : List Nat)
      (column_order : List order) (null_precedence : List null_order),
      (∀ tbl ∈ first_table :: rest, tbl.length = first_table.length) →
      (∀ tbl ∈ first_table :: rest,
        tbl.map Column.dtype = first_table.map Column.dtype) →
      key_cols ≠ [] →
      key_cols.length ≤ first_table.length →
      key_cols.length = column_order.length →
      (∀ tbl ∈ first_table :: rest, num_rows tbl = 0) →
      cudf_merge (first_table :: rest) key_cols column_order null_precedence =
        Except.ok (empty_like first_table)) := by
  constructor
  · intro key_cols column_order null_precedence
    rfl
  · intro first_table rest key_cols column_order null_precedence hcols htypes
      hkc hle hos hzero
    rw [cudf_merge_checks_pass hcols htypes hkc hle hos]
    have hfilter : ((first_table :: rest).filter fun tbl =>
        decide (0 < num_rows tbl)) = [] :=
      List.filter_eq_nil_iff.mpr fun tbl ht => by
        simp [hzero tbl ht]
    rw [hfilter]
    rfl

/-- C7 witness: one zero-row one-column table. -/
theorem C7_empty_handling_witness :
    cudf_merge [] [0] [order.ASCENDING] [null_order.BEFORE] =
      Except.ok ([] : Table) ∧
    cudf_merge [[⟨DType.int, []⟩]] [0] [order.ASCENDING] [null_order.BEFORE] =
      Except.ok (empty_like [⟨DType.int, []⟩]) :=
  ⟨C7_empty_handling.1 [0] [order.ASCENDING] [null_order.BEFORE],
   C7_empty_handling.2 [⟨DType.int, []⟩] [] [0] [order.ASCENDING]
     [null_order.BEFORE] (by decide) (by decide) (by decide) (by decide) rfl
     (by decide)⟩

/-- C8: when exactly one table remains after discarding zero-row inputs
(under valid configuration), cudf_merge returns a table equal in content to
that one non-empty table. -/
theorem C8_single_nonempty (first_table : Table) (rest : List Table)
    (key_cols : List Nat) (column_order : List order)
    (null_precedence : List null_order) (t : Table)
    (hcols : ∀ tbl ∈ first_table :: rest, tbl.length = first_table.length)
    (htypes : ∀ tbl ∈ first_table :: rest,
      tbl.map Column.dtype = first_table.map Column.dtype)
    (hkc : key_cols ≠ [])
    (hle : key_cols.length ≤ first_table.length)
    (hos : key_cols.length = column_order.length)
    (hfilter : ((first_table :: rest).filter fun tbl =>
      decide (0 < num_rows tbl)) = [t]) :
    cudf_merge (first_table :: rest) key_cols column_order null_precedence =
      Except.ok t := by
  rw [cudf_merge_checks_pass hcols htypes hkc hle hos, hfilter]
  rfl

/-- C8 witness: a zero-row table and one non-empty table; the merge returns
the non-empty table's content. -/
theorem C8_single_nonempty_witness :
    (([[⟨DType.int, []⟩], [⟨DType.int, [some (Val.vint 7)]⟩]] :
        List Table).filter fun tbl => decide (0 < num_rows tbl)) =
      [[⟨DType.int, [some (Val.vint 7)]⟩]] ∧
    cudf_merge [[⟨DType.int, []⟩], [⟨DType.int, [some (Val.vint 7)]⟩]] [0]
        [order.ASCENDING] [null_order.BEFORE] =
      Except.ok [⟨DType.int, [some (Val.vint 7)]⟩] :=
  ⟨by decide,
   C8_single_nonempty _ _ _ _ _ _ (by decide) (by decide) (by decide)
     (by decide) rfl (by decide)⟩

/-- C5 counterexample: the claim says merge fails fast when the null-order
vector's length mismatches the key-column list's length, but cudf_merge
succeeds on a valid one-table call whose null_precedence is empty while one
key column is configured — no length check exists for null_precedence. -/
theorem C5_counterexample :
    cudf_merge [[⟨DType.int, [some (Val.vint 1)]⟩]] [0] [order.ASCENDING]
        [] = Except.ok [⟨DType.int, [some (Val.vint 1)]⟩] ∧
    ([] : List null_order).length ≠ ([0] : List Nat).length := by
  constructor
  · rfl
  · decide

/-- C5 (amended): merge fails fast with the source's descriptive error,
before any merge work, when some table's column count differs from the
first's, when per-column types differ, when key_cols is empty, when
key_cols exceeds the column count, or when column_order's length mismatches
key_cols' length (null_precedence's length is not validated); and when all
checked preconditions hold no such error is raised. -/
theorem C5_precondition_checks :
    (∀ (first_table : Table) (rest : List Table) (key_cols : List Nat)
      (column_order : List order) (null_precedence : List null_order),
      (∃ tbl ∈ first_table :: rest, tbl.length ≠ first_table.length) →
      cudf_merge (first_table :: rest) key_cols column_order null_precedence =
        Except.error "Mismatched number of columns") ∧
    (∀ (first_table : Table) (rest : List Table) (key_cols : List Nat)
      (column_order : List order) (null_precedence : List null_order),
      (∀ tbl ∈ first_table :: rest, tbl.length = first_table.length) →
      (∃ tbl ∈ first_table :: rest,
        tbl.map Column.dtype ≠ first_table.map Column.dtype) →
      cudf_merge (first_table :: rest) key_cols column_order null_precedence =
        Except.error "Mismatched column types") ∧
    (∀ (first_table : Table) (rest : List Table) (column_order : List order)
      (null_precedence : List null_order),
      (∀ tbl ∈ first_table :: rest, tbl.length = first_table.length) →
      (∀ tbl ∈ first_table :: rest,
        tbl.map Column.dtype = first_table.map Column.dtype) →
      cudf_merge (first_table :: rest) [] column_order null_precedence =
        Except.error "Empty key_cols") ∧
    (∀ (first_table : Table) (rest : List Table) (key_cols : List Nat)
      (column_order : List order) (null_precedence : List null_order),
      (∀ tbl ∈ first_table :: rest, tbl.length = first_table.length) →
      (∀ tbl ∈ first_table :: rest,
        tbl.map Column.dtype = first_table.map Column.dtype) →
      key_cols ≠ [] →
      first_table.length < key_cols.length →
      cudf_merge (first_table :: rest) key_cols column_order null_precedence =
        Except.error "Too many values in key_cols") ∧
    (∀ (first_table : Table) (rest : List Table) (key_cols : List Nat)
      (column_order : List order) (null_precedence : List null_order),
      (∀ tbl ∈ first_table :: rest, tbl.length = first_table.length) →
      (∀ tbl ∈ first_table :: rest,
        tbl.map Column.dtype = first_table.map Column.dtype) →
      key_cols ≠ [] →
      key_cols.length ≤ first_table.length →
      key_cols.length ≠ column_order.length →
      cudf_merge (first_table :: rest) key_cols column_order null_precedence =
        Except.error "Mismatched size between key_cols and column_order") ∧
    (∀ (first_table : Table) (rest : List Table) (key_cols : List Nat)
      (column_order : List order) (null_precedence : List null_order),
      (∀ tbl ∈ first_table :: rest, tbl.length = first_table.length) →
      (∀ tbl ∈ first_table :: rest,
        tbl.map Column.dtype = first_table.map Column.dtype) →
      key_cols ≠ [] →
      key_cols.length ≤ first_table.length →
      key_cols.length = column_order.length →
      ∃ t, cudf_merge (first_table :: rest) key_cols column_order
        null_precedence = Except.ok t) := by
  refine ⟨?_, ?_, ?_, ?_, ?_, ?_⟩
  · intro first_table rest key_cols column_order null_precedence hex
    have h1 : ((first_table :: rest).all fun tbl =>
        tbl.length == first_table.length) = false := by
      rcases hex with ⟨tbl, htm, hne⟩
      refine List.all_eq_false.mpr ⟨tbl, htm, ?_⟩
      simpa using hne
    simp [cudf_merge, h1]
  · intro first_table rest key_cols column_order null_precedence hcols hex
    have h1 : ((first_table :: rest).all fun tbl =>
        tbl.length == first_table.length) = true :=
      List.all_eq_true.mpr fun tbl ht => beq_iff_eq.mpr (hcols tbl ht)
    have h2 : ((first_table :: rest).all fun tbl =>
        have_same_types first_table tbl) = false := by
      rcases hex with ⟨tbl, htm, hne⟩
      refine List.all_eq_false.mpr ⟨tbl, htm, ?_⟩
      unfold have_same_types
      simpa using fun h => hne h.symm
    simp [cudf_merge, h1, h2]
  · intro first_table rest column_order null_precedence hcols htypes
    have h1 : ((first_table :: rest).all fun tbl =>
        tbl.length == first_table.length) = true :=
      List.all_eq_true.mpr fun tbl ht => beq_iff_eq.mpr (hcols tbl ht)
    have h2 : ((first_table :: rest).all fun tbl =>
        have_same_types first_table tbl) = true :=
      List.all_eq_true.mpr fun tbl ht => beq_iff_eq.mpr (htypes tbl ht).symm
    simp [cudf_merge, h1, h2]
  · intro first_table rest key_cols column_order null_precedence hcols htypes
      hkc hlt
    have h1 : ((first_table :: rest).all fun tbl =>
        tbl.length == first_table.length) = true :=
      List.all_eq_true.mpr fun tbl ht => beq_iff_eq.mpr (hcols tbl ht)
    have h2 : ((first_table :: rest).all fun tbl =>
        have_same_types first_table tbl) = true :=
      List.all_eq_true.mpr fun tbl ht => beq_iff_eq.mpr (htypes tbl ht).symm
    have h3 : key_cols.isEmpty = false := List.isEmpty_eq_false.mpr hkc
    simp [cudf_merge, h1, h2, h3, hlt]
  · intro first_table rest key_cols column_order null_precedence hcols htypes
      hkc hle hne
    have h1 : ((first_table :: rest).all fun tbl =>
        tbl.length == first_table.length) = true :=
      List.all_eq_true.mpr fun tbl ht => beq_iff_eq.mpr (hcols tbl ht)
    have h2 : ((first_table :: rest).all fun tbl =>
        have_same_types first_table tbl) = true :=
      List.all_eq_true.mpr fun tbl ht => beq_iff_eq.mpr (htypes tbl ht).symm
    have h3 : key_cols.isEmpty = false := List.isEmpty_eq_false.mpr hkc
    have h4 : ¬ (first_table.length < key_cols.length) := not_lt.mpr hle
    have h5 : (key_cols.length == column_order.length) = false := by
      simpa using hne
    simp [cudf_merge, h1, h2, h3, h4, h5]
  · intro first_table rest key_cols column_order null_precedence hcols htypes
      hkc hle hos
    rw [cudf_merge_checks_pass hcols htypes hkc hle hos]
    rcases hfil : ((first_table :: rest).filter fun tbl =>
        decide (0 < num_rows tbl)).map mk_merge_queue_item with _ | ⟨q, qs⟩
    · exact ⟨empty_like first_table, rfl⟩
    · cases qs with
      | nil => exact ⟨q.view, rfl⟩
      | cons q2 qs2 =>
        exact ⟨nway_loop key_cols column_order null_precedence
          (q :: q2 :: qs2), rfl⟩

/-- C5 witness: a column-count mismatch is rejected with the source's
message, and a fully valid configuration (even with an empty null-order
vector) succeeds. -/
theorem C5_precondition_checks_witness :
    cudf_merge [[⟨DType.int, [some (Val.vint 1)]⟩], []] [0] [order.ASCENDING]
        [null_order.BEFORE] = Except.error "Mismatched number of columns" ∧
    (∃ t, cudf_merge [[⟨DType.int, [some (Val.vint 1)]⟩]] [0]
        [order.ASCENDING] [null_order.BEFORE] = Except.ok t) :=
  ⟨C5_precondition_checks.1 _ _ _ _ _ ⟨[], by decide, by decide⟩,
   C5_precondition_checks.2.2.2.2.2 _ _ _ _ _ (by decide) (by decide)
     (by decide) (by decide) rfl⟩

/-- C9: a queue item's priority is fixed at construction as the negated row
count, and whenever the loop pops from a queue of such items, the popped
item's row count is minimal among the queue — so the two items popped in
each iteration are the two with the smallest row counts. -/
theorem C9_queue_minimality :
    (∀ t : Table, (mk_merge_queue_item t).priority = -(num_rows t : Int)) ∧
    (∀ (q : List merge_queue_item) (a : merge_queue_item)
      (rest : List merge_queue_item),
      (∀ x ∈ q, x.priority = -(num_rows x.view : Int)) →
      top_and_pop q = some (a, rest) →
      ∀ b ∈ rest, num_rows a.view ≤ num_rows b.view) ∧
    (∀ (q : List merge_queue_item) (a : merge_queue_item)
      (rest : List merge_queue_item) (b : merge_queue_item)
      (rest2 : List merge_queue_item),
      (∀ x ∈ q, x.priority = -(num_rows x.view : Int)) →
      top_and_pop q = some (a, rest) →
      top_and_pop rest = some (b, rest2) →
      num_rows a.view ≤ num_rows b.view ∧
      ∀ d ∈ rest2, num_rows b.view ≤ num_rows d.view) := by
  have hmin : ∀ (q : List merge_queue_item) (a : merge_queue_item)
      (rest : List merge_queue_item),
      (∀ x ∈ q, x.priority = -(num_rows x.view : Int)) →
      top_and_pop q = some (a, rest) →
      ∀ b ∈ rest, num_rows a.view ≤ num_rows b.view := by
    intro q a rest hinv hpop b hb
    have hmemb : b ∈ q := top_and_pop_rest_subset hpop b hb
    have hmema : a ∈ q := top_and_pop_mem hpop
    have hle := top_and_pop_max hpop b hmemb
    rw [hinv a hmema, hinv b hmemb] at hle
    exact_mod_cast neg_le_neg_iff.mp hle
  refine ⟨fun t => rfl, hmin, ?_⟩
  intro q a rest b rest2 hinv hpop hpop2
  have hinv' : ∀ x ∈ rest, x.priority = -(num_rows x.view : Int) :=
    fun x hx => hinv x (top_and_pop_rest_subset hpop x hx)
  exact ⟨hmin q a rest hinv hpop b (top_and_pop_mem hpop2),
    hmin rest b rest2 hinv' hpop2⟩

/-- C9 witness: a three-item queue with row counts 2, 1, 3; the first pop
returns the one-row table and the remaining items both have more rows. -/
theorem C9_queue_minimality_witness :
    (∀ x ∈ [mk_merge_queue_item [⟨DType.int, [some (Val.vint 1),
        some (Val.vint 2)]⟩],
      mk_merge_queue_item [⟨DType.int, [some (Val.vint 5)]⟩],
      mk_merge_queue_item [⟨DType.int, [some (Val.vint 1), some (Val.vint 2),
        some (Val.vint 3)]⟩]],
      x.priority = -(num_rows x.view : Int)) ∧
    top_and_pop [mk_merge_queue_item [⟨DType.int, [some (Val.vint 1),
        some (Val.vint 2)]⟩],
      mk_merge_queue_item [⟨DType.int, [some (Val.vint 5)]⟩],
      mk_merge_queue_item [⟨DType.int, [some (Val.vint 1), some (Val.vint 2),
        some (Val.vint 3)]⟩]] =
      some (mk_merge_queue_item [⟨DType.int, [some (Val.vint 5)]⟩],
        [mk_merge_queue_item [⟨DType.int, [some (Val.vint 1),
          some (Val.vint 2)]⟩],
         mk_merge_queue_item [⟨DType.int, [some (Val.vint 1),
           some (Val.vint 2), some (Val.vint 3)]⟩]]) ∧
    (∀ b ∈ [mk_merge_queue_item [⟨DType.int, [some (Val.vint 1),
        some (Val.vint 2)]⟩],
      mk_merge_queue_item [⟨DType.int, [some (Val.vint 1), some (Val.vint 2),
        some (Val.vint 3)]⟩]],
      num_rows (mk_merge_queue_item
        [⟨DType.int, [some (Val.vint 5)]⟩]).view ≤ num_rows b.view) :=
  ⟨by decide, by decide,
   C9_queue_minimality.2.1
     [mk_merge_queue_item [⟨DType.int, [some (Val.vint 1), some (Val.vint 2)]⟩],
      mk_merge_queue_item [⟨DType.int, [some (Val.vint 5)]⟩],
      mk_merge_queue_item [⟨DType.int, [some (Val.vint 1), some (Val.vint 2),
        some (Val.vint 3)]⟩]] _ _ (by decide) (by decide)⟩

end cudf
